import Mathlib

/-!
Verification of the parallel GFA emission pipeline of the cuttlefish
compacted de Bruijn graph writer, a shallow embedding of
`src/CdBG_GFA_Writer.cpp` in Lean 4.

The embedding covers: the per-thread partition of a sequence's k-mer
index range (`output_maximal_unitigs_gfa`, lines 90-104), the
compare-and-swap output-deduplication discipline (`output_unitig_gfa`,
lines 311-331), the per-run walker loop (lines 260-301), the unitig
identity and orientation computation (lines 311-319), the GFA segment,
link and path formatting (`write_gfa_segment`, `write_gfa_link`,
`append_link_to_path`, `write_gfa_path`, `search_first_link`), the
per-thread witness slots (lines 336-349) and the temp-file lifecycle of
the driver loop (lines 55-142).

Types that live in repository headers not present in the sources
(`Kmer`, `Annotated_Kmer`, `Oriented_Unitig`, the placeholder constant,
the base complement) are modelled from the spec where noted.
-/

set_option linter.unusedVariables false

namespace Cuttlefish

/-- Placeholder nucleotide constant. Modelled from the spec: §3 declares
symbols outside {A,C,G,T} placeholder nucleotides; the writer compares
characters against the single constant `cuttlefish::PLACEHOLDER_NUCLEOTIDE`
(defined in a header that is not among the given sources). -/
def PLACEHOLDER_NUCLEOTIDE : Char := 'N'

/-- Read `seq[i]`. Out-of-range reads (which never occur in the C++ under
its index invariants) yield the placeholder, so that the embedding stays
total. -/
def seqAt (seq : List Char) (i : Nat) : Char :=
  seq.getD i PLACEHOLDER_NUCLEOTIDE

/-- Orientation of a k-mer / unitig (`cuttlefish::kmer_dir_t`). -/
inductive Dir where
  | FWD
  | BWD
deriving DecidableEq, Repr

/-- A k-mer as the list of its 2-bit base codes (A=0, C=1, G=2, T=3).
Modelled from the spec: the `Kmer` class (header not among the sources)
stores 2-bit packed codes and compares numerically, which on equal-length
k-mers is this lexicographic order on the code lists. -/
abbrev Kmer := List Nat

/-- Modelled from the spec: reverse complement, with base complement
A↔T, C↔G, i.e. `b ↦ 3 - b` on the 2-bit codes. -/
def revCompl (x : Kmer) : Kmer := (x.map (fun b => 3 - b)).reverse

/-- Strict lexicographic comparison of code lists: `operator<` of the
`Kmer` class restricted to equal-width k-mers. -/
def kmerLt : Kmer → Kmer → Bool
  | [], [] => false
  | [], _ :: _ => true
  | _ :: _, [] => false
  | a :: xs, b :: ys => decide (a < b) || (decide (a = b) && kmerLt xs ys)

/-- `std::min` under `kmerLt`: `std::min(a, b)` returns `b` when `b < a`,
else `a`. -/
def kmerMin (a b : Kmer) : Kmer := if kmerLt b a then b else a

/-- Modelled from the spec: canonical form = lexicographic min of the
forward form and the reverse complement (§3, I4). -/
def canonicalOf (x : Kmer) : Kmer := kmerMin x (revCompl x)

/-- The fields of `Annotated_Kmer` used by the writer. Modelled from the
spec §3: `(kmer, canonical, rev_compl, idx, dir, vertex_class)`; the
vertex class is not needed by the claims below. -/
structure AnnotatedKmer where
  kmer : Kmer
  rev_compl : Kmer
  canonical : Kmer
  idx : Nat
  dir : Dir

/-- Construct a well-formed annotated k-mer from its forward form:
`rev_compl` and `canonical` are derived, `dir` is FWD iff the k-mer is
its own canonical form (spec §3). -/
def annotOf (x : Kmer) (i : Nat) : AnnotatedKmer :=
  { kmer := x
    rev_compl := revCompl x
    canonical := canonicalOf x
    idx := i
    dir := if x = canonicalOf x then Dir.FWD else Dir.BWD }

/-- `Oriented_Unitig` (spec §3): id, orientation and the sequence
positions of the two flanking k-mers. The C++ default-constructed
"invalid" value is modelled by wrapping slots in `Option`. -/
structure OrientedUnitig where
  unitig_id : Nat
  dir : Dir
  start_kmer_idx : Nat
  end_kmer_idx : Nat
deriving DecidableEq, Repr

/-! ### C1 — the per-thread partition (`output_maximal_unitigs_gfa`, lines 90-104) -/

/-- Line 90: `size_t task_size = (seq_len - k + 1) / thread_count;`
(C++ unsigned integer division, i.e. floor). -/
def task_size (seq_len k thread_count : Nat) : Nat :=
  (seq_len - k + 1) / thread_count

/-- Lines 96 and 103: `left_end` starts at 0 and advances by `task_size`
once per spawned task, so worker `t` starts at the value after `t`
increments. -/
def left_end (seq_len k thread_count : Nat) : Nat → Nat
  | 0 => 0
  | t + 1 => left_end seq_len k thread_count t + task_size seq_len k thread_count

/-- Line 101: `right_end = (task_id == thread_count - 1 ? seq_len - k :
left_end + task_size - 1);`. -/
def right_end (seq_len k thread_count t : Nat) : Nat :=
  if t = thread_count - 1 then seq_len - k
  else left_end seq_len k thread_count t + task_size seq_len k thread_count - 1

/-! ### C2 — the CAS output-dedup discipline (`output_unitig_gfa`, lines 313-331)

One hash-table slot (one vertex) is modelled; `reg t` holds the state
that thread `t`'s `Kmer_Hash_Entry_API` read at `Vertices[bucket_id]`
(line 313), and an `update` event performs lines 324-330: if the read
state was not outputted, set the outputted bit and attempt
`Vertices.update`, which succeeds iff the slot still equals the value
read; the S-record is written only on success. -/

/-- The shared slot plus each thread's loaded entry. -/
structure SlotState where
  outputted : Bool
  reg : Nat → Option Bool

/-- An atomic event on the slot: a thread's initial read (line 313-314)
or its guarded update attempt (lines 324-330). -/
inductive HashEvent where
  | load (t : Nat)
  | update (t : Nat)

/-- One atomic event; returns the new state and `some t` iff thread `t`
wrote the S-record (observed not-outputted and the CAS succeeded). -/
def hash_step (s : SlotState) : HashEvent → SlotState × Option Nat
  | HashEvent.load t =>
    ({ s with reg := fun u => if u = t then some s.outputted else s.reg u }, none)
  | HashEvent.update t =>
    match s.reg t with
    | none => (s, none)
    | some v =>
      if v then (s, none)
      else if s.outputted = v then ({ s with outputted := true }, some t)
      else (s, none)

/-- Run an interleaving (any order of loads and updates of any threads),
collecting the threads that wrote the S-record. -/
def hash_run : SlotState → List HashEvent → SlotState × List Nat
  | s, [] => (s, [])
  | s, e :: es =>
    let p := hash_step s e
    let q := hash_run p.1 es
    (q.1, p.2.toList ++ q.2)

/-- The slot before emission: not yet outputted, no thread has loaded. -/
def init_slot : SlotState := { outputted := false, reg := fun _ => none }

/-! ### C3 — the walker loop (`output_maximal_unitigs_gfa`, lines 260-301)

The loop is generic in the annotated-k-mer type `A`: the classification
data (`roll_to_next_kmer`, `is_unipath_start`, `is_unipath_end`, fresh
annotation) lives in headers not among the sources and the claim is about
the loop's control structure, so they are abstract parameters. -/

structure WalkCtx (A : Type) where
  k : Nat
  seq : List Char
  roll : A → Char → A
  is_unipath_start : A → A → Bool
  is_unipath_end : A → A → Bool

/-- Which `return` the walker took: `runEnd` is the return at lines
273-284 (no valid right neighbor: end of sequence or placeholder);
`guardFail` is the fall-through return at line 300 (loop guard
`on_unipath || kmer_idx <= right_end` became false). -/
inductive ExitSite where
  | runEnd
  | guardFail
deriving DecidableEq, Repr

/-- The observable outcome of the loop: the returned index, the emission
trace (each `output_unitig_gfa(start, curr)` call in order), and the
values of the loop's locals at the executed `return`. -/
structure WalkExit (A : Type) where
  ret : Nat
  emits : List (A × A)
  exit_idx : Nat
  exit_on_unipath : Bool
  exit_start : A
  exit_curr : A
  site : ExitSite

/-- The `for` loop of lines 260-295 plus the final return of line 300.
State on entry of an iteration: `kmer_idx` (already incremented by the
`for` header), `curr`/`next` the annotated k-mers, `on_unipath` and
`unipath_start` the pending-unitig state, `acc` the emissions so far. -/
def walk_loop {A : Type} (C : WalkCtx A) (right_e kmer_idx : Nat)
    (curr next : A) (on_unipath : Bool) (unipath_start : A)
    (acc : List (A × A)) : WalkExit A :=
  if on_unipath = true ∨ kmer_idx ≤ right_e then
    -- lines 262-263: prev_kmer = curr_kmer; curr_kmer = next_kmer;
    let prev := curr
    let curr1 := next
    -- lines 265-269
    let started := C.is_unipath_start curr1 prev
    let on_up1 := on_unipath || started
    let start1 := if started then curr1 else unipath_start
    if h : kmer_idx + C.k = C.seq.length ∨
        seqAt C.seq (kmer_idx + C.k) = PLACEHOLDER_NUCLEOTIDE then
      -- lines 273-284: emit the pending unipath, return kmer_idx + k
      { ret := kmer_idx + C.k
        emits := acc ++ (if on_up1 then [(start1, curr1)] else [])
        exit_idx := kmer_idx
        exit_on_unipath := on_up1
        exit_start := start1
        exit_curr := curr1
        site := ExitSite.runEnd }
    else
      -- lines 285-294: roll, possibly close the unipath, next iteration
      let next1 := C.roll curr1 (seqAt C.seq (kmer_idx + C.k))
      let closing := on_up1 && C.is_unipath_end curr1 next1
      walk_loop C right_e (kmer_idx + 1) curr1 next1 (on_up1 && !closing)
        start1 (acc ++ (if closing then [(start1, curr1)] else []))
  else
    -- line 300: return kmer_idx + k
    { ret := kmer_idx + C.k
      emits := acc
      exit_idx := kmer_idx
      exit_on_unipath := on_unipath
      exit_start := unipath_start
      exit_curr := curr
      site := ExitSite.guardFail }
termination_by C.seq.length - kmer_idx
decreasing_by
  have hlt : kmer_idx + C.k < C.seq.length := by
    rcases Nat.lt_or_ge (kmer_idx + C.k) C.seq.length with h1 | h1
    · exact h1
    · have h2 : C.seq[kmer_idx + C.k]? = none := List.getElem?_eq_none h1
      exact absurd (Or.inr (by simp [seqAt, List.getD, h2])) h
  omega

/-- What C3 asserts of the loop's outcome `r`: every return site returns
`kmer_idx + k` for its exit index; the loop can fall out of its guard
only with no pending unipath and past `right_end` (so a pending unitig is
walked past the shard boundary — the overshoot); and at a run-end exit
(end of sequence or placeholder) the pending unipath, if any, is the last
emission. -/
def walk_exit_ok {A : Type} (C : WalkCtx A) (right_e : Nat) (r : WalkExit A) : Prop :=
  r.ret = r.exit_idx + C.k ∧
  (r.site = ExitSite.guardFail → r.exit_on_unipath = false ∧ right_e < r.exit_idx) ∧
  (r.site = ExitSite.runEnd →
    (r.exit_idx + C.k = C.seq.length ∨
      seqAt C.seq (r.exit_idx + C.k) = PLACEHOLDER_NUCLEOTIDE) ∧
    (r.exit_on_unipath = true →
      r.emits.getLast? = some (r.exit_start, r.exit_curr)))

/-! ### C4 / C5 — unitig identity and orientation (`output_unitig_gfa`, lines 311-319) -/

/-- Line 311: `std::min(start_kmer.canonical, end_kmer.canonical)`. -/
def min_flanking_kmer (start_kmer end_kmer : AnnotatedKmer) : Kmer :=
  kmerMin start_kmer.canonical end_kmer.canonical

/-- Lines 312 & 317: the unitig id is the hash-table bucket of the
minimum flanking canonical k-mer. `Vertices.bucket_id` is the
deterministic minimum perfect hash (spec §4.B, header not among the
sources), abstracted as the function argument. -/
def unitig_id (bucket_id : Kmer → Nat) (start_kmer end_kmer : AnnotatedKmer) : Nat :=
  bucket_id (min_flanking_kmer start_kmer end_kmer)

/-- Line 318: `(start_kmer.kmer < end_kmer.rev_compl ? FWD : BWD)`. -/
def unitig_dir (start_kmer end_kmer : AnnotatedKmer) : Dir :=
  if kmerLt start_kmer.kmer end_kmer.rev_compl then Dir.FWD else Dir.BWD

/-- Line 319: the `Oriented_Unitig` recorded for this emission site. -/
def current_unitig (bucket_id : Kmer → Nat) (start_kmer end_kmer : AnnotatedKmer) :
    OrientedUnitig :=
  { unitig_id := unitig_id bucket_id start_kmer end_kmer
    dir := unitig_dir start_kmer end_kmer
    start_kmer_idx := start_kmer.idx
    end_kmer_idx := end_kmer.idx }

/-! ### C6 — link formatting (`write_gfa_link`, lines 391-415;
`append_link_to_path`, lines 418-427) -/

/-- `CdBG::write_gfa_link`: the L-line appended to the thread's buffer,
fragment by fragment in source order. -/
def write_gfa_link (k : Nat) (left_unitig right_unitig : OrientedUnitig) : String :=
  "L"
    ++ ("\t" ++ toString left_unitig.unitig_id ++ "\t"
      ++ (if left_unitig.dir = Dir.FWD then "+" else "-"))
    ++ ("\t" ++ toString right_unitig.unitig_id ++ "\t"
      ++ (if right_unitig.dir = Dir.FWD then "+" else "-"))
    ++ ("\t"
      ++ toString
        (if right_unitig.start_kmer_idx = left_unitig.end_kmer_idx + 1 then k - 1 else 0)
      ++ "M")
    ++ "\n"

/-- `CdBG::append_link_to_path`, line 423: the fragment appended to the
thread's path spool for a link. -/
def append_link_to_path_entry (right_unitig : OrientedUnitig) : String :=
  "," ++ toString right_unitig.unitig_id
    ++ (if right_unitig.dir = Dir.FWD then "+" else "-")

/-- `CdBG::append_link_to_path`, line 424: the fragment appended to the
thread's overlap spool for a link. -/
def append_link_to_overlap_entry (k : Nat) (left_unitig right_unitig : OrientedUnitig) :
    String :=
  "," ++ toString
      (if right_unitig.start_kmer_idx = left_unitig.end_kmer_idx + 1 then k - 1 else 0)
    ++ "M"

/-- Spec-side sign (§4.G): `+` for FWD, `-` for BWD. -/
def sign_str (d : Dir) : String := if d = Dir.FWD then "+" else "-"

/-- Spec-side overlap (§4.F adjacency test): `k−1` iff
`V.start_kmer_idx == U.end_kmer_idx + 1`, else 0. -/
def overlap_spec (k : Nat) (u v : OrientedUnitig) : Nat :=
  if v.start_kmer_idx = u.end_kmer_idx + 1 then k - 1 else 0

/-- Spec-side L-line (§4.G): `L\t<fromId>\t<fromSign>\t<toId>\t<toSign>\t<overlap>M`. -/
def gfa_link_line_spec (k : Nat) (u v : OrientedUnitig) : String :=
  "L\t" ++ toString u.unitig_id ++ "\t" ++ sign_str u.dir ++ "\t"
    ++ toString v.unitig_id ++ "\t" ++ sign_str v.dir ++ "\t"
    ++ toString (overlap_spec k u v) ++ "M" ++ "\n"

/-- Spec-side path-spool entry: `,<toId><toSign>`. -/
def path_entry_spec (v : OrientedUnitig) : String :=
  "," ++ toString v.unitig_id ++ sign_str v.dir

/-- Spec-side overlap-spool entry: `,<overlap>M`. -/
def overlap_entry_spec (k : Nat) (u v : OrientedUnitig) : String :=
  "," ++ toString (overlap_spec k u v) ++ "M"

/-! ### C7 — segment formatting (`write_gfa_segment`, lines 353-388) -/

/-- Modelled from the spec: base complement on characters (§4.G): A↔T,
C↔G; other symbols are filtered out by the walker before emission, so
their image is irrelevant (we return them unchanged). -/
def complementChar : Char → Char
  | 'A' => 'T'
  | 'T' => 'A'
  | 'C' => 'G'
  | 'G' => 'C'
  | c => c

/-- Lines 362-364: `for(idx = i; idx <= j; ++idx) buffer << seq[idx];`. -/
def seg_fwd (seq : List Char) (i j : Nat) : List Char :=
  if h : i ≤ j then seqAt seq i :: seg_fwd seq (i + 1) j else []
termination_by j + 1 - i
decreasing_by omega

/-- Lines 367-374: `idx = end + k; while(idx > start) { idx--;
buffer << complement(seq[idx]); }`. -/
def seg_bwd (seq : List Char) (start_i idx : Nat) : List Char :=
  if h : start_i < idx then
    complementChar (seqAt seq (idx - 1)) :: seg_bwd seq start_i (idx - 1)
  else []
termination_by idx
decreasing_by omega

/-- `CdBG::write_gfa_segment`: the S-line appended to the thread's
buffer, fragment by fragment in source order. -/
def write_gfa_segment (seq : List Char) (k : Nat) (segment_name : Nat)
    (start_kmer_idx end_kmer_idx : Nat) (dir : Dir) : String :=
  ("S\t" ++ toString segment_name)
    ++ "\t"
    ++ String.mk
      (if dir = Dir.FWD then seg_fwd seq start_kmer_idx (end_kmer_idx + k - 1)
       else seg_bwd seq start_kmer_idx (end_kmer_idx + k))
    ++ ("\tLN:i:" ++ toString (end_kmer_idx - start_kmer_idx + k))
    ++ ("\tKC:i:" ++ toString (end_kmer_idx - start_kmer_idx + 1))
    ++ "\n"

/-- The spelled base range `seq[s .. e+k-1]` as the spec words it. -/
def unitig_range (seq : List Char) (k s e : Nat) : List Char :=
  (seq.drop s).take (e + k - s)

/-- Spec-side S-line (§4.G): FWD spells the range, BWD its reverse
complement; `LN = e − s + k`, `KC = e − s + 1`. -/
def gfa_segment_line_spec (seq : List Char) (k name s e : Nat) (d : Dir) : String :=
  "S\t" ++ toString name ++ "\t"
    ++ String.mk
      (if d = Dir.FWD then unitig_range seq k s e
       else ((unitig_range seq k s e).map complementChar).reverse)
    ++ "\tLN:i:" ++ toString (e - s + k)
    ++ "\tKC:i:" ++ toString (e - s + 1) ++ "\n"

/-! ### C8 — the path record (`search_first_link`, lines 457-483;
`write_gfa_path`, lines 486-590) -/

/-- The loop of `search_first_link` over the per-thread
`(first_unitig[t], second_unitig[t])` pairs in thread order, with the
`left_unitig` accumulator (initially invalid); returns
`(left_unitig, right_unitig)` at the executed return. -/
def search_first_link_from :
    List (Option OrientedUnitig × Option OrientedUnitig) → Option OrientedUnitig →
    Option OrientedUnitig × Option OrientedUnitig
  | [], left => (left, none)
  | (f, s) :: rest, left =>
    match f, left with
    | some u, none =>
      -- line 467: left := first[t]; then line 475: check second[t]
      (match s with
       | some v => (some u, some v)
       | none => search_first_link_from rest (some u))
    | some u, some l =>
      -- lines 470-471: right := first[t]; return
      (some l, some u)
    | none, left0 =>
      -- line 475: if second[t] is valid: right := second[t]; return
      (match s with
       | some v => (left0, some v)
       | none => search_first_link_from rest left0)

/-- `CdBG::search_first_link`: both accumulators start invalid (lines
459-460). -/
def search_first_link (ws : List (Option OrientedUnitig × Option OrientedUnitig)) :
    Option OrientedUnitig × Option OrientedUnitig :=
  search_first_link_from ws none

/-- `CdBG::write_gfa_path` (lines 504-590): the list of P-records written
for the sequence. If the first-link search yields no valid left unitig,
nothing is written (lines 510-511); otherwise one P-line is assembled
from the first witness, the concatenated path spools, and the overlaps
(`*` if no second witness). -/
def write_gfa_path (k seq_count : Nat)
    (ws : List (Option OrientedUnitig × Option OrientedUnitig))
    (path_spool overlap_spool : List String) : List String :=
  match search_first_link ws with
  | (none, _) => []
  | (some l, r) =>
    ["P" ++ ("\tP" ++ toString seq_count) ++ "\t"
       ++ (toString l.unitig_id ++ (if l.dir = Dir.FWD then "+" else "-"))
       ++ String.join path_spool
       ++ "\t"
       ++ (match r with
           | none => "*"
           | some ru =>
             (toString (if ru.start_kmer_idx = l.end_kmer_idx + 1 then k - 1 else 0)
               ++ "M")
               ++ String.join overlap_spool)
       ++ "\n"]

/-! ### C9 — temp-spool lifecycle (`output_maximal_unitigs_gfa`, lines 55-142;
`remove_temp_files`, lines 593-605) -/

/-- State-changing actions of the driver, in the order the source
performs them. -/
inductive DriverAct where
  | resetStreams
  | writePath
  | flushBuffers
  | removeTemp
deriving DecidableEq, Repr

/-- Per-sequence body of the driver loop (lines 58-133): sequences
shorter than `k` are skipped (lines 67-68); otherwise the spools are
opened/truncated (`reset_path_streams`, line 83), the workers run, and
`write_gfa_path` is called (line 132). -/
def seq_acts (k len : Nat) : List DriverAct :=
  if len < k then [] else [DriverAct.resetStreams, DriverAct.writePath]

/-- `CdBG::output_maximal_unitigs_gfa` as an action trace: the
per-sequence loop over the input sequence lengths, then one buffer flush
(line 139) and one `remove_temp_files` call (line 142). -/
def driver_acts (k : Nat) (lens : List Nat) : List DriverAct :=
  (lens.map (seq_acts k)).flatten ++ [DriverAct.flushBuffers, DriverAct.removeTemp]

/-- The lifecycle C9 claims: after each sequence's `write_gfa_path`, a
`remove_temp_files` occurs before any later sequence begins
(`reset_path_streams`), i.e. the spools never persist past the
sequence's processing. -/
def removed_per_sequence (tr : List DriverAct) : Prop :=
  ∀ i j : Fin tr.length,
    tr.get i = DriverAct.writePath → tr.get j = DriverAct.resetStreams → i < j →
      ∃ m : Fin tr.length, i < m ∧ m < j ∧ tr.get m = DriverAct.removeTemp

instance (tr : List DriverAct) : Decidable (removed_per_sequence tr) := by
  unfold removed_per_sequence
  infer_instance

/-! ### C10 — witness slots of a thread (`output_unitig_gfa`, lines 336-349) -/

/-- The three per-thread witness slots (`first_unitig[t]`,
`second_unitig[t]`, `last_unitig[t]`); `none` is the default-constructed
invalid `Oriented_Unitig`. -/
structure ThreadWitness where
  first : Option OrientedUnitig
  second : Option OrientedUnitig
  last : Option OrientedUnitig
deriving DecidableEq, Repr

/-- Lines 78-80: the slots are reset to invalid for each sequence. -/
def init_witness : ThreadWitness := ⟨none, none, none⟩

/-- Lines 336-349 of `output_unitig_gfa` for one emission of
`current_unitig`: fill `first`, else `second`; if `last` is valid, write
the intra-thread link (returned) and spool it; then `last := current`. -/
def record_unitig (w : ThreadWitness) (cu : OrientedUnitig) :
    ThreadWitness × List (OrientedUnitig × OrientedUnitig) :=
  let fs : Option OrientedUnitig × Option OrientedUnitig :=
    match w.first with
    | none => (some cu, w.second)
    | some f =>
      match w.second with
      | none => (some f, some cu)
      | some s => (some f, some s)
  let links : List (OrientedUnitig × OrientedUnitig) :=
    match w.last with
    | some p => [(p, cu)]
    | none => []
  (⟨fs.1, fs.2, some cu⟩, links)

/-- The witness state after a thread has emitted the unitigs `cus` in
order. -/
def record_all (w : ThreadWitness) (cus : List OrientedUnitig) : ThreadWitness :=
  cus.foldl (fun w cu => (record_unitig w cu).1) w

/-- The implications the stitcher depends on: a valid `second` implies a
valid `first`, and a valid `first` implies a valid `last`. -/
def witness_inv (w : ThreadWitness) : Prop :=
  (w.second.isSome = true → w.first.isSome = true) ∧
  (w.first.isSome = true → w.last.isSome = true)

/-! ## Theorems -/

/-! ### Shared helper lemmas -/

theorem left_end_eq (L k T t : Nat) : left_end L k T t = t * task_size L k T := by
  induction t with
  | zero => simp [left_end]
  | succ n ih => simp [left_end, ih, Nat.succ_mul]

theorem hash_run_after_outputted (tr : List HashEvent) :
    ∀ s : SlotState, s.outputted = true → (hash_run s tr).2 = [] := by
  induction tr with
  | nil => intro s _; simp [hash_run]
  | cons e es ih =>
    intro s hs
    cases e with
    | load t =>
      simpa [hash_run, hash_step] using ih _ (by simpa using hs)
    | update t =>
      cases hv : s.reg t with
      | none => simpa [hash_run, hash_step, hv] using ih _ hs
      | some v =>
        cases v with
        | true => simpa [hash_run, hash_step, hv] using ih _ hs
        | false => simp [hash_run, hash_step, hv, hs]; exact ih _ hs


theorem hash_run_len (tr : List HashEvent) :
    ∀ s : SlotState, (hash_run s tr).2.length ≤ 1 := by
  induction tr with
  | nil => intro s; simp [hash_run]
  | cons e es ih =>
    intro s
    cases e with
    | load t =>
      simpa [hash_run, hash_step] using ih _
    | update t =>
      cases hv : s.reg t with
      | none => simpa [hash_run, hash_step, hv] using ih _
      | some v =>
        cases v with
        | true => simpa [hash_run, hash_step, hv] using ih _
        | false =>
          by_cases ho : s.outputted = false
          · have hrest := hash_run_after_outputted es { s with outputted := true } rfl
            simp [hash_run, hash_step, hv, ho, hrest]
          · have ho' : s.outputted = true := by
              cases h : s.outputted
              · exact absurd h ho
              · rfl
            simpa [hash_run, hash_step, hv, ho'] using ih _

/-! ### C1 -/

/-- C1 counterexample: with `L = 7`, `k = 3`, `T = 2` the per-range size
is nonzero, yet worker 0's range `[0, 1]` has size 2 while
`⌈(L−k+1)/T⌉ = ⌈5/2⌉ = 3`, so the ranges do not "each" have size
`⌈(L−k+1)/T⌉` as the claim states. -/
theorem thread_partition_ceil_fails :
    task_size 7 3 2 ≠ 0 ∧
    right_end 7 3 2 0 + 1 - left_end 7 3 2 0 = 2 ∧
    (7 - 3 + 1 + 2 - 1) / 2 = 3 ∧
    right_end 7 3 2 0 + 1 - left_end 7 3 2 0 ≠ (7 - 3 + 1 + 2 - 1) / 2 := by
  decide

/-- C1 (amended): for `L ≥ k`, `T ≥ 1` and nonzero per-range size
`s = ⌊(L−k+1)/T⌋`, the k-mer index range `[0, L−k]` is partitioned into
`T` contiguous ranges: worker `t` receives the `t`-th range
`[t·s, …]`, every non-last range has size exactly `s` (floor, not
ceiling), consecutive ranges are adjacent, the first range starts at 0,
and the last range ends at `L−k`, absorbing the remainder
`(L−k+1) mod T` on top of `s`. -/
theorem thread_partition_floor (L k T t : Nat) (hT : 0 < T) (hk : k ≤ L)
    (hs : task_size L k T ≠ 0) (ht : t < T) :
    left_end L k T 0 = 0 ∧
    right_end L k T (T - 1) = L - k ∧
    left_end L k T t = t * task_size L k T ∧
    (t < T - 1 →
      left_end L k T (t + 1) = right_end L k T t + 1 ∧
      right_end L k T t + 1 - left_end L k T t = task_size L k T) ∧
    (t = T - 1 →
      right_end L k T t + 1 - left_end L k T t
        = task_size L k T + (L - k + 1) % T) := by
  have hdm : T * task_size L k T + (L - k + 1) % T = L - k + 1 :=
    Nat.div_add_mod (L - k + 1) T
  have hs1 : 1 ≤ task_size L k T := Nat.one_le_iff_ne_zero.mpr hs
  refine ⟨rfl, ?_, left_end_eq L k T t, ?_, ?_⟩
  · simp [right_end]
  · intro hlt
    have hne : t ≠ T - 1 := by omega
    constructor
    · simp [left_end, right_end, hne]
      omega
    · simp [right_end, hne]
      omega
  · intro heq
    subst heq
    obtain ⟨s, hs_eq⟩ : ∃ s, task_size L k T = s := ⟨_, rfl⟩
    rw [hs_eq] at hdm hs1
    have hmul : (T - 1) * s + s = T * s := by
      cases T with
      | zero => exact absurd hT (by omega)
      | succ n => simp [Nat.succ_sub_one, Nat.succ_mul]
    rw [right_end, if_pos rfl, left_end_eq, hs_eq]
    omega

/-- C1 witness: the amended partition theorem applied at
`L = 7, k = 3, T = 2, t = 0`. -/
theorem thread_partition_floor_witness :
    0 < 2 ∧ 3 ≤ 7 ∧ task_size 7 3 2 ≠ 0 ∧ 0 < 2 ∧
    (left_end 7 3 2 0 = 0 ∧
      right_end 7 3 2 (2 - 1) = 7 - 3 ∧
      left_end 7 3 2 0 = 0 * task_size 7 3 2 ∧
      (0 < 2 - 1 →
        left_end 7 3 2 (0 + 1) = right_end 7 3 2 0 + 1 ∧
        right_end 7 3 2 0 + 1 - left_end 7 3 2 0 = task_size 7 3 2) ∧
      (0 = 2 - 1 →
        right_end 7 3 2 0 + 1 - left_end 7 3 2 0
          = task_size 7 3 2 + (7 - 3 + 1) % 2)) :=
  ⟨by decide, by decide, by decide, by decide,
    thread_partition_floor 7 3 2 0 (by decide) (by decide) (by decide) (by decide)⟩

/-! ### C2 -/

/-- C2: in every interleaving of per-thread load and guarded
compare-and-swap-update events on a vertex's hash-table slot (each
S-record being written only when the writing thread observed the
`outputted` flag false and its subsequent CAS update succeeded, as in
`output_unitig_gfa` lines 313-331), at most one S-record is written for
that vertex across the whole run, i.e. exactly one thread can make the
false-to-true transition and only that thread emits. -/
theorem s_record_at_most_once (tr : List HashEvent) :
    (hash_run init_slot tr).2.length ≤ 1 ∧
    ∀ t1 t2 : Nat,
      t1 ∈ (hash_run init_slot tr).2 → t2 ∈ (hash_run init_slot tr).2 → t1 = t2 := by
  refine ⟨hash_run_len tr init_slot, ?_⟩
  intro t1 t2 h1 h2
  rcases hl : (hash_run init_slot tr).2 with _ | ⟨a, _ | ⟨b, l⟩⟩
  · rw [hl] at h1
    exact absurd h1 (List.not_mem_nil t1)
  · rw [hl] at h1 h2
    rw [List.mem_singleton] at h1 h2
    rw [h1, h2]
  · have := hash_run_len tr init_slot
    rw [hl] at this
    simp at this

/-- C2 witness: the theorem applied to a concrete two-thread
interleaving in which both threads load before either updates. -/
theorem s_record_at_most_once_witness :
    (hash_run init_slot
      [HashEvent.load 0, HashEvent.load 1,
       HashEvent.update 0, HashEvent.update 1]).2.length ≤ 1 ∧
    ∀ t1 t2 : Nat,
      t1 ∈ (hash_run init_slot
        [HashEvent.load 0, HashEvent.load 1,
         HashEvent.update 0, HashEvent.update 1]).2 →
      t2 ∈ (hash_run init_slot
        [HashEvent.load 0, HashEvent.load 1,
         HashEvent.update 0, HashEvent.update 1]).2 → t1 = t2 :=
  s_record_at_most_once _

/-! ### C4 -/

/-- C4: the orientation recorded for an emitted unitig
(`output_unitig_gfa` line 318) is FWD iff
`start_kmer.kmer < end_kmer.rev_compl` and BWD otherwise; the rule reads
only those two fields, never the traversal direction. -/
theorem unitig_dir_rule (s e : AnnotatedKmer) :
    (unitig_dir s e = Dir.FWD ↔ kmerLt s.kmer e.rev_compl = true) ∧
    (unitig_dir s e = Dir.BWD ↔ kmerLt s.kmer e.rev_compl = false) := by
  unfold unitig_dir
  by_cases h : kmerLt s.kmer e.rev_compl = true
  · simp [h]
  · rw [Bool.not_eq_true] at h
    simp [h]

/-! ### C10 -/

theorem record_unitig_preserves_inv (w : ThreadWitness) (cu : OrientedUnitig) :
    witness_inv w → witness_inv (record_unitig w cu).1 := by
  rintro ⟨h1, h2⟩
  unfold record_unitig witness_inv
  cases hf : w.first with
  | none => cases hs : w.second <;> simp
  | some f => cases hs : w.second <;> simp

/-- C10: starting from the per-sequence reset (all three slots invalid),
after any prefix of a thread's emission calls — hence also when the
shard finishes — a valid `second_unitig[t]` implies a valid
`first_unitig[t]`, and a valid `first_unitig[t]` implies a valid
`last_unitig[t]`. -/
theorem witness_slots_inv (cus : List OrientedUnitig) :
    witness_inv (record_all init_witness cus) := by
  have general : ∀ w, witness_inv w → witness_inv (record_all w cus) := by
    induction cus with
    | nil => intro w h; exact h
    | cons c cs ih =>
      intro w h
      exact ih _ (record_unitig_preserves_inv w c h)
  exact general init_witness ⟨fun h => by simp [init_witness] at h, fun h => by simp [init_witness] at h⟩

/-! ### C3 -/

/-- C3: for every state of the walker at a loop head, the loop of lines
260-295 continues exactly while `on_unipath ∨ kmer_idx ≤ right_end`: it
can fall out of the guard only with no pending unipath and
`kmer_idx > right_end` (so a unitig crossing the shard's right boundary
is walked past `right_end` to its natural end), at a run-end exit
(placeholder or end of sequence) the pending unipath, if any, is emitted
last, and every return site returns `kmer_idx + k`, the non-inclusive
end of the processed contiguous subsequence. -/
theorem walk_loop_exit {A : Type} (C : WalkCtx A) (right_e kmer_idx : Nat)
    (curr nx : A) (on_up : Bool) (up_start : A) (acc : List (A × A)) :
    walk_exit_ok C right_e (walk_loop C right_e kmer_idx curr nx on_up up_start acc) := by
  induction kmer_idx, curr, nx, on_up, up_start, acc using walk_loop.induct C right_e with
  | case1 kmer_idx curr nx on_unipath unipath_start acc hguard hend =>
    rw [walk_loop, if_pos hguard, dif_pos hend]
    refine ⟨rfl, fun hsite => ExitSite.noConfusion hsite, fun _ => ⟨hend, fun hup => ?_⟩⟩
    have hup' : (on_unipath || C.is_unipath_start nx curr) = true := hup
    dsimp only
    rw [if_pos hup']
    exact List.getLast?_concat _
  | case2 kmer_idx curr nx on_unipath unipath_start acc hguard prev curr1 started on_up1 start1 hnotend next1 closing ih =>
    rw [walk_loop, if_pos hguard, dif_neg hnotend]
    exact ih
  | case3 kmer_idx curr nx on_unipath unipath_start acc hguard =>
    rw [walk_loop, if_neg hguard]
    push_neg at hguard
    refine ⟨rfl, fun _ => ⟨?_, ?_⟩, fun hsite => ExitSite.noConfusion hsite⟩
    · exact Bool.not_eq_true _ ▸ hguard.1
    · exact hguard.2

/-- C3 witness: the exit specification applied to a concrete context
(`k = 3`, sequence `ACGTA`, boundary 2, entry at index 1). -/
theorem walk_loop_exit_witness :
    walk_exit_ok
      { k := 3, seq := ['A', 'C', 'G', 'T', 'A'], roll := fun a _ => a,
        is_unipath_start := fun _ _ => false, is_unipath_end := fun _ _ => false }
      2
      (walk_loop
        { k := 3, seq := ['A', 'C', 'G', 'T', 'A'], roll := fun a _ => a,
          is_unipath_start := fun _ _ => false, is_unipath_end := fun _ _ => false }
        2 1 (0 : Nat) 0 false 0 []) :=
  walk_loop_exit _ 2 1 0 0 false 0 []

/-! ### C5 (with helper lemmas on k-mer comparison) -/

theorem kmerLt_asymm : ∀ a b : Kmer, kmerLt a b = true → kmerLt b a = false := by
  intro a
  induction a with
  | nil =>
    intro b _
    cases b with
    | nil => rfl
    | cons x xs => rfl
  | cons x xs ih =>
    intro b hab
    cases b with
    | nil => exact absurd hab (by simp [kmerLt])
    | cons y ys =>
      simp only [kmerLt, Bool.or_eq_true, Bool.and_eq_true, decide_eq_true_eq] at hab
      rcases hab with h1 | ⟨h2, h3⟩
      · have hy : ¬ y < x := by omega
        have hyx : ¬ y = x := by omega
        simp [kmerLt, hy, hyx]
      · subst h2
        simp [kmerLt, ih ys h3]

theorem kmerLt_conn : ∀ a b : Kmer, kmerLt a b = false → kmerLt b a = false → a = b := by
  intro a
  induction a with
  | nil =>
    intro b hab _
    cases b with
    | nil => rfl
    | cons y ys => exact absurd hab (by simp [kmerLt])
  | cons x xs ih =>
    intro b hab hba
    cases b with
    | nil => exact absurd hba (by simp [kmerLt])
    | cons y ys =>
      simp only [kmerLt, Bool.or_eq_false_iff, Bool.and_eq_false_iff,
        decide_eq_false_iff_not] at hab hba
      have hxy : x = y := by
        rcases hab with ⟨h1, _⟩
        rcases hba with ⟨h2, _⟩
        omega
      subst hxy
      rcases hab.2 with h3 | h3
      · exact absurd rfl h3
      · rcases hba.2 with h4 | h4
        · exact absurd rfl h4
        · rw [ih ys (by simpa using h3) (by simpa using h4)]

theorem kmerMin_comm (a b : Kmer) : kmerMin a b = kmerMin b a := by
  unfold kmerMin
  cases hba : kmerLt b a with
  | true =>
    rw [if_pos rfl]
    have hab : kmerLt a b = false := kmerLt_asymm b a hba
    rw [hab]
    rfl
  | false =>
    rw [if_neg (by simp)]
    cases hab : kmerLt a b with
    | true => rfl
    | false =>
      rw [if_neg (by simp)]
      exact kmerLt_conn a b hab hba

theorem revCompl_revCompl (x : Kmer) (h4 : ∀ b ∈ x, b < 4) :
    revCompl (revCompl x) = x := by
  unfold revCompl
  rw [List.map_reverse, List.reverse_reverse, List.map_map]
  conv_rhs => rw [← List.map_id x]
  apply List.map_congr_left
  intro b hb
  have := h4 b hb
  simp
  omega

theorem canonicalOf_revCompl (x : Kmer) (h4 : ∀ b ∈ x, b < 4) :
    canonicalOf (revCompl x) = canonicalOf x := by
  unfold canonicalOf
  rw [revCompl_revCompl x h4, kmerMin_comm]

/-- C5: the unitig id computed at an emission site (`output_unitig_gfa`
lines 311-317) is the hash-table bucket index of the lexicographic
minimum of the two flanking k-mers' canonical forms, and the id computed
from the reverse traversal (flanks swapped and reverse-complemented) is
identical — the id is a deterministic function of the unitig, not of the
thread or traversal direction. -/
theorem unitig_id_well_defined (bucket_id : Kmer → Nat) (s e : AnnotatedKmer)
    (i1 i2 : Nat)
    (hs4 : ∀ b ∈ s.kmer, b < 4) (he4 : ∀ b ∈ e.kmer, b < 4)
    (hsc : s.canonical = canonicalOf s.kmer) (hec : e.canonical = canonicalOf e.kmer) :
    unitig_id bucket_id s e = bucket_id (kmerMin s.canonical e.canonical) ∧
    unitig_id bucket_id (annotOf (revCompl e.kmer) i1) (annotOf (revCompl s.kmer) i2)
      = unitig_id bucket_id s e := by
  constructor
  · rfl
  · unfold unitig_id min_flanking_kmer annotOf
    simp only
    rw [canonicalOf_revCompl e.kmer he4, canonicalOf_revCompl s.kmer hs4,
      hsc, hec, kmerMin_comm]

/-- C5 witness: the theorem applied to the concrete flanks ACG and GGA
(codes `[0,1,2]` and `[2,2,0]`) with the list-length function as bucket
index. -/
theorem unitig_id_well_defined_witness :
    (∀ b ∈ (annotOf [0, 1, 2] 0).kmer, b < 4) ∧
    (∀ b ∈ (annotOf [2, 2, 0] 5).kmer, b < 4) ∧
    (annotOf [0, 1, 2] 0).canonical = canonicalOf (annotOf [0, 1, 2] 0).kmer ∧
    (annotOf [2, 2, 0] 5).canonical = canonicalOf (annotOf [2, 2, 0] 5).kmer ∧
    (unitig_id List.length (annotOf [0, 1, 2] 0) (annotOf [2, 2, 0] 5)
        = List.length (kmerMin (annotOf [0, 1, 2] 0).canonical
            (annotOf [2, 2, 0] 5).canonical) ∧
      unitig_id List.length (annotOf (revCompl (annotOf [2, 2, 0] 5).kmer) 7)
          (annotOf (revCompl (annotOf [0, 1, 2] 0).kmer) 9)
        = unitig_id List.length (annotOf [0, 1, 2] 0) (annotOf [2, 2, 0] 5)) :=
  ⟨by decide, by decide, rfl, rfl,
    unitig_id_well_defined List.length (annotOf [0, 1, 2] 0) (annotOf [2, 2, 0] 5)
      7 9 (by decide) (by decide) rfl rfl⟩

/-! ### C6 -/

/-- C6: every L-record and every spooled path/overlap entry built by
`write_gfa_link` and `append_link_to_path` carries sign `+` for FWD and
`-` for BWD and overlap `k−1` followed by `M` exactly when
`right.start_kmer_idx = left.end_kmer_idx + 1`, and `0` followed by `M`
otherwise, as the spec-side formatting functions state. -/
theorem gfa_link_format (k : Nat) (u v : OrientedUnitig) :
    write_gfa_link k u v = gfa_link_line_spec k u v ∧
    append_link_to_path_entry v = path_entry_spec v ∧
    append_link_to_overlap_entry k u v = overlap_entry_spec k u v := by
  refine ⟨?_, ?_, ?_⟩
  · apply String.ext
    simp [write_gfa_link, gfa_link_line_spec, sign_str, overlap_spec,
      String.data_append]
  · apply String.ext
    simp [append_link_to_path_entry, path_entry_spec, sign_str, String.data_append]
  · apply String.ext
    simp [append_link_to_overlap_entry, overlap_entry_spec, overlap_spec,
      String.data_append]

/-! ### C9 -/

/-- C9 counterexample: in a run over two processed sequences (both of
length 5, `k = 3`), the first sequence's spool files are not removed at
its end of processing — no `remove_temp_files` occurs between the first
sequence's `write_gfa_path` and the second sequence's
`reset_path_streams`, so they persist past the sequence's processing. -/
theorem spool_removal_not_per_sequence :
    ¬ removed_per_sequence (driver_acts 3 [5, 5]) := by
  decide

/-- C9 (amended): the spool files are removed exactly once per run, by
the single `remove_temp_files` call that is the last driver action —
after every sequence's Path record has been written (so never before a
P-record), but not at each sequence's end: they persist across sequences
(each next sequence truncates and reuses them) until the run finishes. -/
theorem spool_removal_at_run_end (k : Nat) (lens : List Nat) :
    ∃ body, driver_acts k lens
        = body ++ [DriverAct.flushBuffers, DriverAct.removeTemp] ∧
      DriverAct.removeTemp ∉ body ∧
      (driver_acts k lens).count DriverAct.removeTemp = 1 := by
  refine ⟨(lens.map (seq_acts k)).flatten, rfl, ?_, ?_⟩
  · intro hmem
    rw [List.mem_flatten] at hmem
    obtain ⟨l, hl, hx⟩ := hmem
    rw [List.mem_map] at hl
    obtain ⟨len, _, rfl⟩ := hl
    revert hx
    by_cases hlk : len < k <;> simp [seq_acts, hlk]
  · have hmem : DriverAct.removeTemp ∉ (lens.map (seq_acts k)).flatten := by
      intro hmem
      rw [List.mem_flatten] at hmem
      obtain ⟨l, hl, hx⟩ := hmem
      rw [List.mem_map] at hl
      obtain ⟨len, _, rfl⟩ := hl
      revert hx
      by_cases hlk : len < k <;> simp [seq_acts, hlk]
    unfold driver_acts
    rw [List.count_append, List.count_eq_zero.mpr hmem]
    rfl

/-! ### C7 (with helper lemmas relating the copy loops to list slices) -/

theorem seg_fwd_eq (seq : List Char) (i j : Nat) :
    j < seq.length → seg_fwd seq i j = (seq.drop i).take (j + 1 - i) := by
  induction i, j using seg_fwd.induct seq with
  | case1 i j hij ih =>
    intro hj
    rw [seg_fwd, dif_pos hij]
    have hi : i < seq.length := by omega
    rw [List.drop_eq_getElem_cons hi]
    have h1 : j + 1 - i = (j - i) + 1 := by omega
    rw [h1, List.take_succ_cons]
    congr 1
    · rw [seqAt, List.getD_eq_getElem?_getD, List.getElem?_eq_getElem hi]
      rfl
    · have h2 : j - i = j + 1 - (i + 1) := by omega
      rw [h2, ih hj]
  | case2 i j hij =>
    intro hj
    rw [seg_fwd, dif_neg hij]
    have h1 : j + 1 - i = 0 := by omega
    rw [h1, List.take_zero]

theorem seg_bwd_eq (seq : List Char) (s : Nat) : ∀ t, t ≤ seq.length →
    seg_bwd seq s t = (((seq.drop s).take (t - s)).map complementChar).reverse := by
  intro t
  induction t using seg_bwd.induct seq s with
  | case1 t hst ih =>
    intro ht
    rw [seg_bwd, dif_pos hst]
    rw [ih (by omega)]
    have h1 : t - s = (t - 1 - s) + 1 := by omega
    have h2 : s + (t - 1 - s) = t - 1 := by omega
    have h3 : t - 1 < seq.length := by omega
    rw [h1, List.take_succ, List.getElem?_drop, h2, List.getElem?_eq_getElem h3]
    rw [seqAt, List.getD_eq_getElem?_getD, List.getElem?_eq_getElem h3]
    simp
  | case2 t hst =>
    intro ht
    rw [seg_bwd, dif_neg hst]
    have h1 : t - s = 0 := by omega
    rw [h1]
    simp

/-- C7: every S-record built by `write_gfa_segment` spells
`seq[start_kmer_idx .. end_kmer_idx+k−1]` when the orientation is FWD and
the reverse complement of that same range when BWD, with
`LN = end_kmer_idx − start_kmer_idx + k` and
`KC = end_kmer_idx − start_kmer_idx + 1`, as the spec-side S-line states. -/
theorem gfa_segment_format (seq : List Char) (k name s e : Nat) (d : Dir)
    (hk : 1 ≤ k) (hse : s ≤ e) (hlen : e + k ≤ seq.length) :
    write_gfa_segment seq k name s e d = gfa_segment_line_spec seq k name s e d := by
  have hfwd : seg_fwd seq s (e + k - 1) = unitig_range seq k s e := by
    rw [seg_fwd_eq seq s (e + k - 1) (by omega), unitig_range]
    congr 1
    omega
  have hbwd : seg_bwd seq s (e + k)
      = ((unitig_range seq k s e).map complementChar).reverse := by
    rw [seg_bwd_eq seq s (e + k) (by omega)]
    rfl
  cases d with
  | FWD =>
    apply String.ext
    simp [write_gfa_segment, gfa_segment_line_spec, hfwd, String.data_append]
  | BWD =>
    apply String.ext
    simp [write_gfa_segment, gfa_segment_line_spec, hbwd, String.data_append]

/-- C7 witness: the theorem applied to the sequence ACGTA with `k = 3`,
segment name 7, flanks 0 and 2, in both orientations' statement form
(FWD shown). -/
theorem gfa_segment_format_witness :
    1 ≤ 3 ∧ (0 : Nat) ≤ 2 ∧ 2 + 3 ≤ ['A', 'C', 'G', 'T', 'A'].length ∧
    write_gfa_segment ['A', 'C', 'G', 'T', 'A'] 3 7 0 2 Dir.FWD
      = gfa_segment_line_spec ['A', 'C', 'G', 'T', 'A'] 3 7 0 2 Dir.FWD :=
  ⟨by decide, by decide, by decide,
    gfa_segment_format ['A', 'C', 'G', 'T', 'A'] 3 7 0 2 Dir.FWD
      (by decide) (by decide) (by decide)⟩

/-! ### C8 (with helper lemmas on the first-link search) -/

theorem search_first_link_from_some (ws : List (Option OrientedUnitig × Option OrientedUnitig)) :
    ∀ l : OrientedUnitig, (search_first_link_from ws (some l)).1.isSome = true := by
  induction ws with
  | nil => intro l; rfl
  | cons p rest ih =>
    intro l
    rcases p with ⟨f, s⟩
    cases f with
    | some u => rfl
    | none =>
      cases s with
      | some v => rfl
      | none => exact ih l

theorem search_first_link_some_iff
    (ws : List (Option OrientedUnitig × Option OrientedUnitig))
    (hinv : ∀ p ∈ ws, p.2.isSome = true → p.1.isSome = true) :
    (search_first_link ws).1.isSome = true ↔ ∃ p ∈ ws, p.1.isSome = true := by
  unfold search_first_link
  induction ws with
  | nil => simp [search_first_link_from]
  | cons p rest ih =>
    rcases p with ⟨f, s⟩
    cases f with
    | some u =>
      cases s with
      | some v =>
        simp [search_first_link_from]
      | none =>
        simp only [search_first_link_from]
        rw [search_first_link_from_some rest u]
        simp
    | none =>
      cases s with
      | some v =>
        have : (Option.none : Option OrientedUnitig).isSome = true :=
          hinv (none, some v) (List.mem_cons_self _ _) rfl
        simp at this
      | none =>
        have ih2 := ih (fun p hp h2 => hinv p (List.mem_cons_of_mem _ hp) h2)
        simp only [search_first_link_from]
        rw [ih2]
        simp

/-- C8: for a processed sequence, `write_gfa_path` writes exactly one
P-record iff some thread's first witness is valid — given the per-thread
invariant that a valid second witness implies a valid first witness — and
when no valid first witness exists it emits nothing and returns. -/
theorem gfa_path_emitted_iff (k n : Nat)
    (ws : List (Option OrientedUnitig × Option OrientedUnitig))
    (ps os : List String)
    (hinv : ∀ p ∈ ws, p.2.isSome = true → p.1.isSome = true) :
    ((write_gfa_path k n ws ps os).length = 1 ↔ ∃ p ∈ ws, p.1.isSome = true) ∧
    (write_gfa_path k n ws ps os = [] ↔ ¬ ∃ p ∈ ws, p.1.isSome = true) := by
  have hiff := search_first_link_some_iff ws hinv
  unfold write_gfa_path
  rcases hsl : search_first_link ws with ⟨left, right⟩
  rw [hsl] at hiff
  cases left with
  | none =>
    simp only [Option.isSome_none] at hiff
    constructor
    · simp [← hiff]
    · simp [← hiff]
  | some l =>
    simp only [Option.isSome_some] at hiff
    constructor
    · simp [← hiff]
    · simp [← hiff]

/-- C8 witness: the theorem applied at a concrete witness table with one
valid first witness and one empty thread. -/
theorem gfa_path_emitted_iff_witness :
    (∀ p ∈ [(some (OrientedUnitig.mk 4 Dir.FWD 0 2), (none : Option OrientedUnitig)),
            (none, none)],
        p.2.isSome = true → p.1.isSome = true) ∧
    (((write_gfa_path 3 1
        [(some (OrientedUnitig.mk 4 Dir.FWD 0 2), none), (none, none)] [] []).length = 1 ↔
      ∃ p ∈ [((some (OrientedUnitig.mk 4 Dir.FWD 0 2) : Option OrientedUnitig),
              (none : Option OrientedUnitig)), (none, none)],
        p.1.isSome = true) ∧
     (write_gfa_path 3 1 [(some (OrientedUnitig.mk 4 Dir.FWD 0 2), none), (none, none)] [] [] = [] ↔
      ¬ ∃ p ∈ [((some (OrientedUnitig.mk 4 Dir.FWD 0 2) : Option OrientedUnitig),
               (none : Option OrientedUnitig)), (none, none)],
        p.1.isSome = true)) :=
  ⟨by decide,
    gfa_path_emitted_iff 3 1 [(some (OrientedUnitig.mk 4 Dir.FWD 0 2), none), (none, none)] [] []
      (by decide)⟩

end Cuttlefish
